import Mathlib

/-!
Verification of the flashback replay driver (`src/replay/src/main.go`).

The file shallowly embeds the driver: the package-level flag variables and
`parseFlags`, the reader/dispatcher selection and worker startup sequence of
`main`, the worker receive loop of `fetch`, the shared `opsExecuted` counter,
and the periodic reporting goroutine.  Components that live in the imported
`replay` package (the ops readers, the dispatchers) are modelled from the
spec where their behaviour matters; each such definition is marked
`Modelled from the spec:` in its doc comment.
-/

namespace Flashback

/-- One recorded database operation; the driver treats `*Op` as opaque, so the
model only needs a value type with decidable equality. -/
structure Op where
  id : Nat
deriving DecidableEq

/-- The package-level flag variables of main.go (`opsFilename`, `url`,
`style`, `workers`, `maxOps`, `sampleRate`).  Go `int` is modelled as `Int`
and `float64` as `Rat` (parseFlags never computes with `sampleRate`). -/
structure Flags where
  opsFilename : String
  url : String
  style : String
  workers : Int
  maxOps : Int
  sampleRate : Rat
deriving DecidableEq

/-- `parseFlags` from main.go: rejects a style other than "stress"/"real",
rejects a non-positive worker count, and replaces `maxOps = 0` by the
numeric constant 4294967295; every other field passes through unchanged. -/
def parseFlags (f : Flags) : Except String Flags :=
  if f.style ≠ "stress" ∧ f.style ≠ "real" then
    Except.error ("Cannot recognize the style: " ++ f.style)
  else if f.workers ≤ 0 then
    Except.error "workers should be a positive number"
  else if f.maxOps = 0 then
    Except.ok { f with maxOps := 4294967295 }
  else
    Except.ok f

/-- The two reader shapes `main` can build: a single-pass file reader
(`NewFileByLineOpsReader`) or the cyclic wrapper (`NewCyclicOpsReader`). -/
inductive ReaderKind
  | fileByLine
  | cyclic
deriving DecidableEq

/-- The resources `main` sets up after flag parsing: the reader kind chosen
from `style`, the latency channel capacity (`make(chan Latency, workers)`),
and the number of per-worker stats collectors. -/
structure RunSetup where
  readerKind : ReaderKind
  latencyChanCap : Int
  numStatsCollectors : Int
deriving DecidableEq

/-- The setup `main` performs on (already parsed) flags: `style == "stress"`
selects the single-pass file reader, the other branch wraps the file reader
in `NewCyclicOpsReader`; the latency channel is created with capacity
`workers` and one stats collector is created per worker. -/
def mkRunSetup (f : Flags) : RunSetup :=
  { readerKind := if f.style = "stress" then ReaderKind.fileByLine else ReaderKind.cyclic
  , latencyChanCap := f.workers
  , numStatsCollectors := f.workers }

/-- Modelled from the spec: the dispatchers (`NewBestEffortOpsDispatcher`,
`NewByTimeOpsDispatcher`, in the `replay` package, not under src/) stop
after releasing `maxOps` operations, so with `available` operations
obtainable from the source the number released is `min available maxOps`. -/
def releasedCount (available : Nat) (maxOps : Int) : Nat :=
  min available maxOps.toNat

/-- Startup events of `main`, in program order: flags parsed, reader
created, dispatcher created, worker `i` connected its session. -/
inductive Event
  | flagsParsed
  | readerCreated (k : ReaderKind)
  | dispatcherCreated
  | workerConnected (i : Nat)
deriving DecidableEq

/-- Worker startup from `fetch` in main.go: each worker calls `mgo.Dial`
and panics on error (a panic in any goroutine aborts the whole process), so
the first failing dial aborts startup; successful dials are recorded. -/
def connectAll : Nat → List (Except String Unit) → List Event × Except String Unit
  | _, [] => ([], Except.ok ())
  | _, Except.error e :: _ => ([], Except.error e)
  | i, Except.ok _ :: rest =>
    let r := connectAll (i + 1) rest
    (Event.workerConnected i :: r.1, r.2)

/-- The startup sequence of `main`: parse flags (panic on error), open the
ops file (panic on error, for both styles), choose the reader from the
style, create the dispatcher, then start the workers, each of which dials
the database (panic on error).  The event list records what was created
before the first fatal error, and the second component is the outcome. -/
def runStartup (f : Flags) (fileOpen : Except String (List Op))
    (dials : List (Except String Unit)) : List Event × Except String Unit :=
  match parseFlags f with
  | Except.error e => ([], Except.error e)
  | Except.ok f' =>
    match fileOpen with
    | Except.error e => ([Event.flagsParsed], Except.error e)
    | Except.ok _ =>
      let rk := (mkRunSetup f').readerKind
      let dr := connectAll 0 dials
      ([Event.flagsParsed, Event.readerCreated rk, Event.dispatcherCreated] ++ dr.1, dr.2)

/-- `NewFileByLineOpsReader`'s next, as the spec's Log Source contract
describes it over the file's operation list: yields the head, signals
end-of-sequence (`none`) on an empty remainder. -/
def fileNext : List Op → Option (Op × List Op)
  | [] => none
  | op :: rest => some (op, rest)

/-- Modelled from the spec: `NewCyclicOpsReader` (in the `replay` package,
not under src/) re-invokes the factory on exhaustion; the factory in
main.go reopens the ops file and panics on error.  With `reopen` the
factory's outcome, a next on a non-exhausted state yields the head; on an
exhausted state a failed re-open is fatal, a fresh non-empty pass yields
its head, and a fresh empty pass yields no record. -/
def cyclicNextWithReopen (reopen : Except String (List Op)) :
    List Op → Except String (Option (Op × List Op))
  | op :: rest => Except.ok (some (op, rest))
  | [] =>
    match reopen with
    | Except.error e => Except.error e
    | Except.ok [] => Except.ok none
    | Except.ok (op :: rest) => Except.ok (some (op, rest))

/-- Concrete flag set with `maxOps = 0` (unlimited, per the flag help). -/
def flagsZeroMax : Flags :=
  { opsFilename := "ops.log", url := "localhost", style := "stress"
  , workers := 10, maxOps := 0, sampleRate := 0 }

/-- Concrete invalid flag set: unrecognised style. -/
def flagsBadStyle : Flags :=
  { opsFilename := "ops.log", url := "localhost", style := "fast"
  , workers := 10, maxOps := 0, sampleRate := 0 }

/-! ## C1: representation of `maxOps = unlimited` -/

/-- C1 counterexample: the claim says `maxOps = 0` leaves the run with no
finite cap rather than substituting a reserved large numeric value.  On the
code, `parseFlags` rewrites `maxOps = 0` to the magic constant 4294967295,
and a source offering 4294967296 operations has only 4294967295 released —
a finite cap realised by a reserved numeric value. -/
theorem c1_maxops_zero_is_magic_constant :
    parseFlags flagsZeroMax = Except.ok { flagsZeroMax with maxOps := 4294967295 } ∧
    ({ flagsZeroMax with maxOps := 4294967295 } : Flags).maxOps ≠ 0 ∧
    releasedCount 4294967296 4294967295 = 4294967295 ∧
    releasedCount 4294967296 4294967295 < 4294967296 := by
  refine ⟨rfl, by decide, rfl, by norm_num [releasedCount]⟩

/-- C1 (amended): for every valid configuration with `maxOps = 0`,
`parseFlags` substitutes the reserved numeric constant 4294967295, so the
run caps released operations at 4294967295 instead of being unlimited. -/
theorem c1_maxops_zero_becomes_4294967295 (f : Flags)
    (hs : f.style = "stress" ∨ f.style = "real") (hw : 0 < f.workers)
    (hm : f.maxOps = 0) :
    parseFlags f = Except.ok { f with maxOps := 4294967295 } ∧
    ∀ available : Nat, releasedCount available 4294967295 ≤ 4294967295 := by
  constructor
  · unfold parseFlags
    have h1 : ¬(f.style ≠ "stress" ∧ f.style ≠ "real") := by
      rcases hs with h | h <;> simp [h]
    rw [if_neg h1, if_neg (by omega), if_pos hm]
  · intro available
    simp [releasedCount]

/-- C1 amended witness at a concrete configuration. -/
theorem c1_maxops_zero_becomes_4294967295_witness :
    parseFlags flagsZeroMax = Except.ok { flagsZeroMax with maxOps := 4294967295 } ∧
    ∀ available : Nat, releasedCount available 4294967295 ≤ 4294967295 :=
  c1_maxops_zero_becomes_4294967295 flagsZeroMax (Or.inl rfl) (by decide) rfl

/-! ## C6: configuration errors are fatal before any work starts -/

/-- C6: for every style other than "stress"/"real" and every non-positive
worker count, flag parsing returns an error and startup aborts with an
empty event list: no reader, dispatcher, or worker is ever created. -/
theorem c6_config_errors_fatal_before_work (f : Flags)
    (h : (f.style ≠ "stress" ∧ f.style ≠ "real") ∨ f.workers ≤ 0) :
    ∃ e, parseFlags f = Except.error e ∧
      ∀ fileOpen dials, runStartup f fileOpen dials = ([], Except.error e) := by
  rcases h with hstyle | hworkers
  · refine ⟨"Cannot recognize the style: " ++ f.style, ?_, ?_⟩
    · unfold parseFlags
      rw [if_pos hstyle]
    · intro fileOpen dials
      unfold runStartup parseFlags
      rw [if_pos hstyle]
  · by_cases hstyle : f.style ≠ "stress" ∧ f.style ≠ "real"
    · refine ⟨"Cannot recognize the style: " ++ f.style, ?_, ?_⟩
      · unfold parseFlags; rw [if_pos hstyle]
      · intro fileOpen dials
        unfold runStartup parseFlags; rw [if_pos hstyle]
    · refine ⟨"workers should be a positive number", ?_, ?_⟩
      · unfold parseFlags; rw [if_neg hstyle, if_pos hworkers]
      · intro fileOpen dials
        unfold runStartup parseFlags; rw [if_neg hstyle, if_pos hworkers]

/-- C6 witness at a concrete invalid configuration. -/
theorem c6_config_errors_fatal_before_work_witness :
    ∃ e, parseFlags flagsBadStyle = Except.error e ∧
      ∀ fileOpen dials, runStartup flagsBadStyle fileOpen dials = ([], Except.error e) :=
  c6_config_errors_fatal_before_work flagsBadStyle (Or.inl (by decide))

/-! ## C8: latency sink capacity equals the worker count -/

/-- C8: for every configured worker count, `main` creates the shared
sampled-latency channel with `make(chan Latency, workers)`: its capacity is
exactly the worker count. -/
theorem c8_latency_chan_capacity_eq_workers (f : Flags) :
    (mkRunSetup f).latencyChanCap = f.workers := rfl

/-! ## C10: validation touches only style and workers -/

/-- C10: flag validation checks only the pacing style and the worker count;
with those valid, every negative `maxOps` and every `sampleRate` outside
[0,1] passes through `parseFlags` with no error and all values unchanged. -/
theorem c10_no_validation_of_maxops_samplerate (f : Flags)
    (hs : f.style = "stress" ∨ f.style = "real") (hw : 0 < f.workers)
    (hm : f.maxOps < 0) (hr : f.sampleRate < 0 ∨ 1 < f.sampleRate) :
    parseFlags f = Except.ok f := by
  unfold parseFlags
  have h1 : ¬(f.style ≠ "stress" ∧ f.style ≠ "real") := by
    rcases hs with h | h <;> simp [h]
  rw [if_neg h1, if_neg (by omega), if_neg (by omega)]

/-- C10 witness: negative `maxOps` and `sampleRate = 2` pass unchanged. -/
theorem c10_no_validation_of_maxops_samplerate_witness :
    parseFlags { opsFilename := "ops.log", url := "localhost", style := "real"
               , workers := 1, maxOps := -5, sampleRate := 2 } =
      Except.ok { opsFilename := "ops.log", url := "localhost", style := "real"
                , workers := 1, maxOps := -5, sampleRate := 2 } :=
  c10_no_validation_of_maxops_samplerate _ (Or.inr rfl) (by decide) (by decide)
    (Or.inr (by norm_num))

/-- Concrete valid flag set with style "real". -/
def flagsReal : Flags :=
  { opsFilename := "ops.log", url := "localhost", style := "real"
  , workers := 3, maxOps := 7, sampleRate := 0 }

lemma parseFlags_valid_shape (f : Flags)
    (hs : f.style = "stress" ∨ f.style = "real") (hw : 0 < f.workers) :
    parseFlags f = Except.ok f ∨
      parseFlags f = Except.ok { f with maxOps := 4294967295 } := by
  unfold parseFlags
  have h1 : ¬(f.style ≠ "stress" ∧ f.style ≠ "real") := by
    rcases hs with h | h <;> simp [h]
  rw [if_neg h1, if_neg (by omega)]
  by_cases hm : f.maxOps = 0
  · rw [if_pos hm]; exact Or.inr rfl
  · rw [if_neg hm]; exact Or.inl rfl

lemma connectAll_mem_error (e : String) :
    ∀ (dials : List (Except String Unit)) (i : Nat), Except.error e ∈ dials →
      ∃ e', (connectAll i dials).2 = Except.error e' := by
  intro dials
  induction dials with
  | nil => intro i h; cases h
  | cons d rest ih =>
    intro i h
    cases d with
    | error e' => exact ⟨e', rfl⟩
    | ok u =>
      rcases List.mem_cons.mp h with h | h
      · cases h
      · exact ih (i + 1) h

/-! ## C5: source and connection errors are fatal -/

/-- C5: with a valid configuration, a failed open of the ops file aborts the
whole startup (both styles open the file through `panicOnError`), a failed
cyclic re-open is fatal (the factory in `main` panics on error), and a
failed `mgo.Dial` in any worker aborts the run (the panic in the worker
goroutine kills the process): none of these errors is absorbed or
retried. -/
theorem c5_source_and_connection_errors_fatal (f : Flags)
    (hs : f.style = "stress" ∨ f.style = "real") (hw : 0 < f.workers)
    (e : String) :
    (∀ dials, (runStartup f (Except.error e) dials).2 = Except.error e) ∧
    cyclicNextWithReopen (Except.error e) [] = Except.error e ∧
    (∀ ops dials, Except.error e ∈ dials →
      ∃ e', (runStartup f (Except.ok ops) dials).2 = Except.error e') := by
  refine ⟨?_, rfl, ?_⟩
  · intro dials
    unfold runStartup
    rcases parseFlags_valid_shape f hs hw with h | h <;> rw [h]
  · intro ops dials hmem
    unfold runStartup
    rcases parseFlags_valid_shape f hs hw with h | h <;> rw [h] <;>
      exact connectAll_mem_error e dials 0 hmem

/-- C5 witness at a concrete configuration and error. -/
theorem c5_source_and_connection_errors_fatal_witness :
    (∀ dials, (runStartup flagsReal (Except.error "no such file") dials).2 =
      Except.error "no such file") ∧
    cyclicNextWithReopen (Except.error "no such file") [] =
      Except.error "no such file" ∧
    (∀ ops dials, Except.error "no such file" ∈ dials →
      ∃ e', (runStartup flagsReal (Except.ok ops) dials).2 = Except.error e') :=
  c5_source_and_connection_errors_fatal flagsReal (Or.inr rfl) (by decide)
    "no such file"

/-! ## C9: pacing style determines the operation-source kind -/

/-- C9: `main` selects the single-pass file reader exactly for style
"stress" and wraps the file reader in the cyclic reader for style "real";
a cyclic source over a non-empty pass never signals end-of-sequence, while
the file reader signals end-of-sequence on exhaustion. -/
theorem c9_style_determines_reader (f g : Flags)
    (hf : f.style = "stress") (hg : g.style = "real")
    (ops : List Op) (hops : ops ≠ []) :
    (mkRunSetup f).readerKind = ReaderKind.fileByLine ∧
    (mkRunSetup g).readerKind = ReaderKind.cyclic ∧
    (∀ cur : List Op, ∃ op rest,
      cyclicNextWithReopen (Except.ok ops) cur = Except.ok (some (op, rest))) ∧
    fileNext [] = none := by
  refine ⟨by simp [mkRunSetup, hf], by simp [mkRunSetup, hg], ?_, rfl⟩
  intro cur
  cases cur with
  | cons op rest => exact ⟨op, rest, rfl⟩
  | nil =>
    cases ops with
    | nil => exact absurd rfl hops
    | cons op rest => exact ⟨op, rest, rfl⟩

/-- C9 witness at concrete flag sets and a one-operation pass. -/
theorem c9_style_determines_reader_witness :
    (mkRunSetup flagsZeroMax).readerKind = ReaderKind.fileByLine ∧
    (mkRunSetup flagsReal).readerKind = ReaderKind.cyclic ∧
    (∀ cur : List Op, ∃ op rest,
      cyclicNextWithReopen (Except.ok [Op.mk 0]) cur = Except.ok (some (op, rest))) ∧
    fileNext [] = none :=
  c9_style_determines_reader flagsZeroMax flagsReal rfl rfl [Op.mk 0] (by decide)

/-! ## C7: synchronization of the shared `opsExecuted` counter -/

/-- Whether a counter access in main.go goes through the `sync/atomic`
package or is a plain memory access. -/
inductive SyncKind
  | atomicOp
  | plainAccess
deriving DecidableEq

/-- Read or write. -/
inductive AccessKind
  | read
  | write
deriving DecidableEq

/-- One access to the shared `opsExecuted` counter in main.go. -/
structure CounterAccess where
  site : String
  kind : AccessKind
  sync : SyncKind
deriving DecidableEq

/-- The accesses to `opsExecuted` visible in main.go: the worker loop in
`fetch` writes it with `atomic.AddInt64(&opsExecuted, 1)`; the reporting
goroutine reads it twice with plain loads — in the report line
`log.Printf("Executed ...", opsExecuted, ...)` and in the loop condition
`opsExecuted < int64(maxOps)`. -/
def opsExecutedAccesses : List CounterAccess :=
  [ { site := "fetch loop body: atomic.AddInt64"
    , kind := AccessKind.write, sync := SyncKind.atomicOp }
  , { site := "reporting goroutine, report line: plain read of opsExecuted"
    , kind := AccessKind.read, sync := SyncKind.plainAccess }
  , { site := "reporting goroutine, loop condition: plain read of opsExecuted"
    , kind := AccessKind.read, sync := SyncKind.plainAccess } ]

/-- C7 counterexample: the claim says every access to the shared counter is
synchronized; in main.go the reporting goroutine's reads are plain
unsynchronized loads, so not every access to `opsExecutedAccesses` is an
atomic operation. -/
theorem c7_not_every_counter_access_synchronized :
    ¬ (∀ a ∈ opsExecutedAccesses, a.sync = SyncKind.atomicOp) := by
  decide

/-- C7 (amended): every write to the shared counter is atomic
(`atomic.AddInt64` in the worker loop), but the reporting path reads the
counter with plain unsynchronized loads, both in the report line and in
the reporting loop condition. -/
theorem c7_writes_atomic_reporting_reads_plain :
    (∀ a ∈ opsExecutedAccesses, a.kind = AccessKind.write →
      a.sync = SyncKind.atomicOp) ∧
    (∃ a ∈ opsExecutedAccesses, a.kind = AccessKind.read ∧
      a.sync = SyncKind.plainAccess) := by
  decide

/-! ## Worker pool model for C3 and C4

The ops channel contents and a consumption schedule.  Workers race to
receive from the FIFO channel; a schedule records, for each successively
received element, which worker took it.  The worker loop of `fetch`
(receive; break on nil; execute and `atomic.AddInt64(&opsExecuted, 1)`)
is embedded as recursion over the list a worker received. -/

/-- Modelled from the spec: the dispatcher (in the `replay` package, not
under src/) pushes the released operations onto the ops channel in order
and then one nil termination marker per worker. -/
def dispatchChannel (ops : List Op) (w : Nat) : List (Option Op) :=
  ops.map some ++ List.replicate w none

/-- The sublist of channel elements received by worker `i` under schedule
`sched` (the `k`-th received channel element goes to worker `sched k`). -/
def recvList (w : Nat) (ch : List (Option Op)) (sched : List (Fin w)) (i : Fin w) :
    List (Option Op) :=
  ((sched.zip ch).filter fun q => decide (q.1 = i)).map Prod.snd

/-- A worker that has received a nil has broken out of its loop, so nil can
only be the last element it ever receives. -/
def stopsAfterNoneB : List (Option Op) → Bool
  | [] => true
  | none :: rest => rest.isEmpty
  | some _ :: rest => stopsAfterNoneB rest

/-- The worker loop of `fetch`: one `atomic.AddInt64(&opsExecuted, 1)` per
operation received, stopping at the first nil. -/
def workerIncrements : List (Option Op) → Nat
  | [] => 0
  | none :: _ => 0
  | some _ :: rest => workerIncrements rest + 1

/-- Whether the worker loop of `fetch` has broken out (received a nil) and
therefore sent its single `exit <- 1` completion signal. -/
def workerExited : List (Option Op) → Bool
  | [] => false
  | none :: _ => true
  | some _ :: rest => workerExited rest

/-- The wait loop at the end of `main`: receives from `exit` until
`received` reaches `workers`; returns `true` when it completes on the
given stream of completion signals, `false` if it is still blocked. -/
def mainWait : Nat → List Unit → Bool
  | 0, _ => true
  | _ + 1, [] => false
  | n + 1, _ :: rest => mainWait n rest

/-- Number of nil termination markers in a received list. -/
def noneCount (l : List (Option Op)) : Nat := l.countP fun o => o.isNone

/-- Number of real operations in a received list. -/
def someCount (l : List (Option Op)) : Nat := l.countP fun o => o.isSome

/-- The final value of the shared `opsExecuted` counter: the sum of every
worker's increments (each increment is an atomic add of one). -/
def finalOpsExecuted (w : Nat) (ops : List Op) (sched : List (Fin w)) : Nat :=
  ∑ i : Fin w, workerIncrements (recvList w (dispatchChannel ops w) sched i)

lemma sum_countP_filter_snd (w : Nat) (pr : Option Op → Bool)
    (ps : List (Fin w × Option Op)) :
    (∑ i : Fin w, ((ps.filter fun q => decide (q.1 = i)).map Prod.snd).countP pr)
      = (ps.map Prod.snd).countP pr := by
  induction ps with
  | nil => simp
  | cons q tl ih =>
    obtain ⟨j, x⟩ := q
    have key : ∀ i : Fin w,
        ((((j, x) :: tl).filter fun q => decide (q.1 = i)).map Prod.snd).countP pr
          = (((tl.filter fun q => decide (q.1 = i)).map Prod.snd).countP pr)
            + (if i = j then (if pr x then 1 else 0) else 0) := by
      intro i
      by_cases hij : i = j
      · subst hij
        simp [List.filter_cons, List.countP_cons]
      · have hji : ¬(j = i) := fun hc => hij hc.symm
        simp [List.filter_cons, hji, hij]
    calc (∑ i : Fin w,
            ((((j, x) :: tl).filter fun q => decide (q.1 = i)).map Prod.snd).countP pr)
        = ∑ i : Fin w, ((((tl.filter fun q => decide (q.1 = i)).map Prod.snd).countP pr)
            + (if i = j then (if pr x then 1 else 0) else 0)) :=
          Finset.sum_congr rfl fun i _ => key i
      _ = (∑ i : Fin w, (((tl.filter fun q => decide (q.1 = i)).map Prod.snd).countP pr))
            + ∑ i : Fin w, (if i = j then (if pr x then 1 else 0) else 0) :=
          Finset.sum_add_distrib
      _ = (tl.map Prod.snd).countP pr + (if pr x then 1 else 0) := by
          rw [ih, Finset.sum_ite_eq' Finset.univ j fun _ => (if pr x then 1 else 0)]
          simp
      _ = (((j, x) :: tl).map Prod.snd).countP pr := by
          rw [List.map_cons, List.countP_cons]

lemma map_snd_zip_take (w : Nat) (sched : List (Fin w)) (ch : List (Option Op)) :
    (sched.zip ch).map Prod.snd = ch.take sched.length := by
  induction sched generalizing ch with
  | nil => simp
  | cons a tl ih =>
    cases ch with
    | nil => simp
    | cons c ctl => simp [ih]

lemma countP_rep (pr : Option Op → Bool) (n : Nat) (a : Option Op) :
    (List.replicate n a).countP pr = if pr a then n else 0 := by
  induction n with
  | zero => simp
  | succ n ih =>
    rw [List.replicate_succ, List.countP_cons, ih]
    by_cases h : pr a <;> simp [h]

lemma noneCount_take_dispatch (ops : List Op) (w L : Nat) :
    noneCount ((dispatchChannel ops w).take L) = min (L - ops.length) w := by
  unfold dispatchChannel noneCount
  rw [List.take_append_eq_append_take, List.countP_append]
  have h1 : ((ops.map some).take L).countP (fun o => o.isNone) = 0 := by
    rw [List.countP_eq_zero]
    intro a ha
    have hmem : a ∈ ops.map some := List.mem_of_mem_take ha
    rcases List.mem_map.mp hmem with ⟨b, _, rfl⟩
    simp
  rw [h1, List.length_map, List.take_replicate, countP_rep]
  simp

lemma someCount_dispatch (ops : List Op) (w : Nat) :
    someCount (dispatchChannel ops w) = ops.length := by
  unfold dispatchChannel someCount
  rw [List.countP_append, List.countP_map, countP_rep]
  simp [Function.comp_def]

lemma stops_noneCount_le_one (l : List (Option Op))
    (h : stopsAfterNoneB l = true) : noneCount l ≤ 1 := by
  induction l with
  | nil => simp [noneCount]
  | cons a tl ih =>
    cases a with
    | none =>
      have htl : tl = [] := by
        simpa [stopsAfterNoneB, List.isEmpty_iff] using h
      subst htl
      simp [noneCount]
    | some v =>
      have h' : stopsAfterNoneB tl = true := by
        simpa [stopsAfterNoneB] using h
      have := ih h'
      simp only [noneCount, List.countP_cons] at *
      simpa using this

lemma stops_increments_eq_someCount (l : List (Option Op))
    (h : stopsAfterNoneB l = true) : workerIncrements l = someCount l := by
  induction l with
  | nil => rfl
  | cons a tl ih =>
    cases a with
    | none =>
      have htl : tl = [] := by
        simpa [stopsAfterNoneB, List.isEmpty_iff] using h
      subst htl
      simp [workerIncrements, someCount]
    | some v =>
      have h' : stopsAfterNoneB tl = true := by
        simpa [stopsAfterNoneB] using h
      simp [workerIncrements, someCount, List.countP_cons, ih h']

lemma workerExited_iff (l : List (Option Op)) :
    workerExited l = true ↔ none ∈ l := by
  induction l with
  | nil => simp [workerExited]
  | cons a tl ih =>
    cases a with
    | none => simp [workerExited]
    | some v => simp [workerExited, ih]

lemma mainWait_iff (n : Nat) (sigs : List Unit) :
    mainWait n sigs = true ↔ n ≤ sigs.length := by
  induction n generalizing sigs with
  | zero => simp [mainWait]
  | succ n ih =>
    cases sigs with
    | nil => simp [mainWait]
    | cons s rest => simpa [mainWait, Nat.succ_le_succ_iff] using ih rest

lemma sum_bounded_all_eq_one (w : Nat) (f : Fin w → Nat)
    (hle : ∀ i, f i ≤ 1) (hsum : (∑ i : Fin w, f i) = w) : ∀ i, f i = 1 := by
  intro j
  by_contra hne
  have hlt : (∑ i : Fin w, f i) < ∑ _i : Fin w, 1 :=
    Finset.sum_lt_sum (fun i _ => hle i)
      ⟨j, Finset.mem_univ j, by have := hle j; omega⟩
  rw [hsum] at hlt
  simp at hlt

lemma sum_noneCount_recv (w : Nat) (ops : List Op) (sched : List (Fin w)) :
    (∑ i : Fin w, noneCount (recvList w (dispatchChannel ops w) sched i))
      = min (sched.length - ops.length) w := by
  have hd := noneCount_take_dispatch ops w sched.length
  simp only [noneCount] at hd
  simp only [noneCount, recvList]
  rw [sum_countP_filter_snd, map_snd_zip_take]
  exact hd

lemma terminal_schedule_full (w : Nat) (hw : 0 < w) (ops : List Op)
    (sched : List (Fin w))
    (hlen : sched.length ≤ (dispatchChannel ops w).length)
    (hvalid : ∀ i, stopsAfterNoneB (recvList w (dispatchChannel ops w) sched i) = true)
    (hterm : sched.length = (dispatchChannel ops w).length ∨
      ∀ i, workerExited (recvList w (dispatchChannel ops w) sched i) = true) :
    sched.length = (dispatchChannel ops w).length := by
  rcases hterm with h | h
  · exact h
  · have hch : (dispatchChannel ops w).length = ops.length + w := by
      simp [dispatchChannel]
    have hsum := sum_noneCount_recv w ops sched
    have hge : ∀ i : Fin w,
        1 ≤ noneCount (recvList w (dispatchChannel ops w) sched i) := by
      intro i
      have hmem : (none : Option Op) ∈ recvList w (dispatchChannel ops w) sched i :=
        (workerExited_iff _).mp (h i)
      have hpos : 0 < noneCount (recvList w (dispatchChannel ops w) sched i) :=
        List.countP_pos_iff.mpr ⟨none, hmem, rfl⟩
      omega
    have hwle : w ≤ ∑ i : Fin w, noneCount (recvList w (dispatchChannel ops w) sched i) := by
      calc w = ∑ _i : Fin w, 1 := by simp
        _ ≤ _ := Finset.sum_le_sum fun i _ => hge i
    rw [hsum, le_min_iff] at hwle
    rw [hch] at hlen ⊢
    omega

/-! ## C3: exactly one increment per executed operation -/

/-- C3: each worker performs one atomic increment of the shared counter per
operation it executes, so for every terminating run (a valid consumption
schedule of the whole ops channel, or one in which every worker has
exited), the final counter value equals exactly the number of operations
released, with no duplicate or missing increments. -/
theorem c3_final_counter_eq_ops_released (w : Nat) (hw : 0 < w)
    (ops : List Op) (sched : List (Fin w))
    (hlen : sched.length ≤ (dispatchChannel ops w).length)
    (hvalid : ∀ i, stopsAfterNoneB (recvList w (dispatchChannel ops w) sched i) = true)
    (hterm : sched.length = (dispatchChannel ops w).length ∨
      ∀ i, workerExited (recvList w (dispatchChannel ops w) sched i) = true) :
    finalOpsExecuted w ops sched = ops.length := by
  have hfull := terminal_schedule_full w hw ops sched hlen hvalid hterm
  unfold finalOpsExecuted
  rw [Finset.sum_congr rfl fun i _ => stops_increments_eq_someCount _ (hvalid i)]
  have hd := someCount_dispatch ops w
  simp only [someCount] at hd
  simp only [someCount, recvList]
  rw [sum_countP_filter_snd, map_snd_zip_take, hfull, List.take_length]
  exact hd

/-- Concrete released operations for the witnesses. -/
def wOps : List Op := [Op.mk 0, Op.mk 1, Op.mk 2]

/-- Concrete full consumption schedule for two workers (C3 witness). -/
def wSched : List (Fin 2) := [0, 1, 0, 0, 1]

/-- Concrete full consumption schedule for two workers (C4 witness). -/
def wSched' : List (Fin 2) := [1, 0, 1, 1, 0]

/-- C3 witness: two workers, three released operations, a concrete full
schedule; the final counter is exactly three. -/
theorem c3_final_counter_eq_ops_released_witness :
    finalOpsExecuted 2 wOps wSched = wOps.length :=
  c3_final_counter_eq_ops_released 2 (by decide) wOps wSched (by decide)
    (by decide) (Or.inl (by decide))

/-! ## C4: one termination marker per worker, main waits for all -/

/-- C4: once dispatch stops, in every terminating run each of the `w`
workers receives exactly one nil termination marker (none starved, none
receives two), has exited its loop and thus sent its single completion
signal, and the wait loop of `main` completes with `w` completion signals
but not with fewer. -/
theorem c4_one_marker_each_and_main_waits_all (w : Nat) (hw : 0 < w)
    (ops : List Op) (sched : List (Fin w))
    (hlen : sched.length ≤ (dispatchChannel ops w).length)
    (hvalid : ∀ i, stopsAfterNoneB (recvList w (dispatchChannel ops w) sched i) = true)
    (hterm : sched.length = (dispatchChannel ops w).length ∨
      ∀ i, workerExited (recvList w (dispatchChannel ops w) sched i) = true) :
    (∀ i, noneCount (recvList w (dispatchChannel ops w) sched i) = 1 ∧
      workerExited (recvList w (dispatchChannel ops w) sched i) = true) ∧
    mainWait w (List.replicate w ()) = true ∧
    (∀ k, k < w → mainWait w (List.replicate k ()) = false) := by
  have hfull := terminal_schedule_full w hw ops sched hlen hvalid hterm
  have hch : (dispatchChannel ops w).length = ops.length + w := by
    simp [dispatchChannel]
  have hsum : (∑ i : Fin w, noneCount (recvList w (dispatchChannel ops w) sched i)) = w := by
    rw [sum_noneCount_recv, hfull, hch]
    simp
  have hone := sum_bounded_all_eq_one w _
    (fun i => stops_noneCount_le_one _ (hvalid i)) hsum
  refine ⟨fun i => ⟨hone i, ?_⟩, ?_, ?_⟩
  · have hpos : 0 < noneCount (recvList w (dispatchChannel ops w) sched i) := by
      rw [hone i]; omega
    rcases List.countP_pos_iff.mp hpos with ⟨a, ha, hpa⟩
    have hna : a = none := by
      cases a with
      | none => rfl
      | some v => simp at hpa
    exact (workerExited_iff _).mpr (hna ▸ ha)
  · rw [mainWait_iff]
    simp
  · intro k hk
    by_contra hne
    have hb : mainWait w (List.replicate k ()) = true := by
      cases hmw : mainWait w (List.replicate k ()) with
      | false => exact absurd hmw hne
      | true => rfl
    have hle := (mainWait_iff w (List.replicate k ())).mp hb
    simp at hle
    omega

/-- C4 witness: two workers, three released operations, a concrete full
schedule; both workers receive exactly one marker and exit, and main
completes with two signals but not with zero or one. -/
theorem c4_one_marker_each_and_main_waits_all_witness :
    (∀ i, noneCount (recvList 2 (dispatchChannel wOps 2) wSched' i) = 1 ∧
      workerExited (recvList 2 (dispatchChannel wOps 2) wSched' i) = true) ∧
    mainWait 2 (List.replicate 2 ()) = true ∧
    (∀ k, k < 2 → mainWait 2 (List.replicate k ()) = false) :=
  c4_one_marker_each_and_main_waits_all 2 (by decide) wOps wSched' (by decide)
    (by decide) (Or.inl (by decide))

/-! ## C2: the final status report

A small-step model of the concurrent structure of `main`: the workers
driving the shared counter and sending `exit` signals, the wait loop of
`main`, and the reporting goroutine (check the loop condition
`opsExecuted < int64(maxOps)`; sleep five seconds; report; and the
deferred `report()` once the loop exits).  When `main` returns, the Go
process exits and every other goroutine stops running, modelled by the
`alive` flag that every step requires. -/

/-- A global state of the run: the shared counter, how many workers have
sent their `exit` signal, how many `main` has received, the reporting
goroutine's position (at the loop condition or inside `time.Sleep`),
whether its deferred final report has run, how many interval and final
reports were produced, and whether the process is still alive. -/
structure RepState where
  counter : Nat
  exited : Nat
  received : Nat
  sleeping : Bool
  reporterDone : Bool
  intervalReports : Nat
  finalReports : Nat
  alive : Bool
deriving DecidableEq

/-- One scheduling step of the run with `w` workers and cap `maxOps`:
a worker executes an operation and increments the counter; a worker that
has consumed its nil marker (all `maxOps` operations executed) sends its
`exit` signal; `main` receives a pending signal; `main` returns once it
has received `w` signals, ending the process; the reporter checks its
loop condition and enters `time.Sleep` while the counter is below
`maxOps`; the reporter wakes and emits an interval report; the reporter
observes the counter at `maxOps`, leaves the loop and its deferred call
emits the final report.  Every step requires the process to be alive. -/
inductive RepStep (w maxOps : Nat) : RepState → RepState → Prop
  | workerOp (s : RepState) (ha : s.alive = true) (hc : s.counter < maxOps) :
      RepStep w maxOps s { s with counter := s.counter + 1 }
  | workerExit (s : RepState) (ha : s.alive = true) (hc : s.counter = maxOps)
      (he : s.exited < w) :
      RepStep w maxOps s { s with exited := s.exited + 1 }
  | mainRecv (s : RepState) (ha : s.alive = true) (hr : s.received < s.exited) :
      RepStep w maxOps s { s with received := s.received + 1 }
  | mainReturn (s : RepState) (ha : s.alive = true) (hr : s.received = w) :
      RepStep w maxOps s { s with alive := false }
  | reporterSleep (s : RepState) (ha : s.alive = true) (hs : s.sleeping = false)
      (hd : s.reporterDone = false) (hc : s.counter < maxOps) :
      RepStep w maxOps s { s with sleeping := true }
  | reporterWake (s : RepState) (ha : s.alive = true) (hs : s.sleeping = true) :
      RepStep w maxOps s
        { s with sleeping := false, intervalReports := s.intervalReports + 1 }
  | reporterFinal (s : RepState) (ha : s.alive = true) (hs : s.sleeping = false)
      (hd : s.reporterDone = false) (hc : maxOps ≤ s.counter) :
      RepStep w maxOps s
        { s with finalReports := s.finalReports + 1, reporterDone := true }

/-- The state at the start of the run. -/
def initRepState : RepState :=
  { counter := 0, exited := 0, received := 0, sleeping := false
  , reporterDone := false, intervalReports := 0, finalReports := 0
  , alive := true }

/-- A final state of a one-worker, one-operation run: the counter reached
`maxOps = 1`, the worker exited, `main` received the signal and returned,
and the process died with the reporter never having reported. -/
def deadRepState : RepState :=
  { counter := 1, exited := 1, received := 1, sleeping := false
  , reporterDone := false, intervalReports := 0, finalReports := 0
  , alive := false }

/-- C2 (code bug witness): with one worker and `maxOps = 1` there is a
legal scheduling of `main` — worker executes the operation, worker exits,
`main` receives the signal and returns — that reaches a stuck state in
which the counter has reached `maxOps`, the process has exited, and no
final report (and no report at all) was ever produced: `main` never waits
for the reporting goroutine, so the run does not always end with a
summary. -/
theorem c2_run_can_end_without_final_report :
    Relation.ReflTransGen (RepStep 1 1) initRepState deadRepState ∧
    deadRepState.counter = 1 ∧ deadRepState.alive = false ∧
    deadRepState.finalReports = 0 ∧ deadRepState.intervalReports = 0 ∧
    (∀ s', ¬ RepStep 1 1 deadRepState s') := by
  refine ⟨?_, rfl, rfl, rfl, rfl, ?_⟩
  · refine Relation.ReflTransGen.head
      (RepStep.workerOp initRepState rfl (by decide)) ?_
    refine Relation.ReflTransGen.head
      (RepStep.workerExit _ rfl rfl (by decide)) ?_
    refine Relation.ReflTransGen.head
      (RepStep.mainRecv _ rfl (by decide)) ?_
    refine Relation.ReflTransGen.head
      (RepStep.mainReturn _ rfl rfl) ?_
    exact Relation.ReflTransGen.refl
  · intro s' hstep
    cases hstep <;> simp_all [deadRepState]

end Flashback
